import Mathlib

/-!
Verification development for the Excel data-processing gateway
(`excel-processor/app.py`).

The pipeline embedded here, translated from the source:
  * the Base64/UTF-8 preview encoder and the document's embedded
    client-side decoder (`atob` / `escape` / `decodeURIComponent`),
  * `clean_dataframe` (drop empty rows/columns, heuristic header
    resolution, merged-cell forward fill, null replacement),
  * `process_single_sheet_task` (semantic summary and fragment build),
  * `excel_to_html_fast` (sequential and pooled dispatch) and the
    `/process` route's document assembly.
-/

namespace ExcelProc

/-! ### UTF-8 byte encoding

`raw_html_table.encode('utf-8')` (app.py line 159).  A Python `str` is a
sequence of Unicode scalar values, modelled as `List Char`; bytes are `Nat`
values below 256. -/

/-- UTF-8 encoding of a single Unicode scalar value (given as a `Nat`). -/
def utf8EncodeChar (n : Nat) : List Nat :=
  if n < 0x80 then [n]
  else if n < 0x800 then [0xC0 + n / 64, 0x80 + n % 64]
  else if n < 0x10000 then [0xE0 + n / 4096, 0x80 + n / 64 % 64, 0x80 + n % 64]
  else [0xF0 + n / 262144, 0x80 + n / 4096 % 64, 0x80 + n / 64 % 64, 0x80 + n % 64]

/-- UTF-8 encoding of a text, byte list of `s.encode('utf-8')`. -/
def utf8Encode : List Char → List Nat
  | [] => []
  | c :: rest => utf8EncodeChar c.toNat ++ utf8Encode rest

/-- Is `b` a UTF-8 continuation byte (`0x80 ≤ b < 0xC0`)? -/
def isCont (b : Nat) : Bool := 0x80 ≤ b && b < 0xC0

/-- UTF-8 decoding of a byte list back to text; `none` on malformed input. -/
def utf8Decode : List Nat → Option (List Char)
  | [] => some []
  | b :: rest =>
    if b < 0x80 then
      (utf8Decode rest).map (fun cs => Char.ofNat b :: cs)
    else if b < 0xC0 then none
    else if b < 0xE0 then
      if 1 ≤ rest.length ∧ isCont (rest.getD 0 0) then
        (utf8Decode (rest.drop 1)).map (fun cs =>
          Char.ofNat ((b - 0xC0) * 64 + (rest.getD 0 0 - 0x80)) :: cs)
      else none
    else if b < 0xF0 then
      if 2 ≤ rest.length ∧ isCont (rest.getD 0 0) ∧ isCont (rest.getD 1 0) then
        (utf8Decode (rest.drop 2)).map (fun cs =>
          Char.ofNat ((b - 0xE0) * 4096 + (rest.getD 0 0 - 0x80) * 64 +
            (rest.getD 1 0 - 0x80)) :: cs)
      else none
    else if b < 0xF8 then
      if 3 ≤ rest.length ∧ isCont (rest.getD 0 0) ∧ isCont (rest.getD 1 0) ∧
          isCont (rest.getD 2 0) then
        (utf8Decode (rest.drop 3)).map (fun cs =>
          Char.ofNat ((b - 0xF0) * 262144 + (rest.getD 0 0 - 0x80) * 4096 +
            (rest.getD 1 0 - 0x80) * 64 + (rest.getD 2 0 - 0x80)) :: cs)
      else none
    else none
termination_by l => l.length
decreasing_by
  all_goals simp only [List.length_cons, List.length_drop]
  all_goals omega

/-! ### Base64

`base64.b64encode(html_bytes).decode('utf-8')` (app.py line 160) with the
standard alphabet, and the browser's `window.atob` (app.py line 186), which
inverts it yielding a string whose code points are the decoded byte values. -/

/-- The standard Base64 alphabet, sextet value to character. -/
def b64Alphabet (n : Nat) : Char :=
  if n < 26 then Char.ofNat (65 + n)
  else if n < 52 then Char.ofNat (97 + (n - 26))
  else if n < 62 then Char.ofNat (48 + (n - 52))
  else if n = 62 then '+'
  else '/'

/-- Sextet value of a Base64 character (64 for characters outside the alphabet). -/
def b64Val (c : Char) : Nat :=
  let v := c.toNat
  if 65 ≤ v ∧ v ≤ 90 then v - 65
  else if 97 ≤ v ∧ v ≤ 122 then v - 71
  else if 48 ≤ v ∧ v ≤ 57 then v + 4
  else if v = 43 then 62
  else if v = 47 then 63
  else 64

/-- Python `base64.b64encode`: bytes to Base64 text, three bytes per four characters,
with `=` padding. -/
def b64Encode : List Nat → List Char
  | [] => []
  | [a] => [b64Alphabet (a / 4), b64Alphabet (a % 4 * 16), '=', '=']
  | [a, b] => [b64Alphabet (a / 4), b64Alphabet (a % 4 * 16 + b / 16),
      b64Alphabet (b % 16 * 4), '=']
  | a :: b :: c :: rest =>
    b64Alphabet (a / 4) :: b64Alphabet (a % 4 * 16 + b / 16) ::
      b64Alphabet (b % 16 * 4 + c / 64) :: b64Alphabet (c % 64) :: b64Encode rest

/-- Browser `window.atob`: Base64 text back to byte values; `none` on malformed input
(the embedded script's catch branch). -/
def b64Decode : List Char → Option (List Nat)
  | [] => some []
  | c0 :: c1 :: c2 :: c3 :: rest =>
    if c2 = '=' then
      if c3 = '=' ∧ rest = [] then some [b64Val c0 * 4 + b64Val c1 / 16]
      else none
    else if c3 = '=' then
      if rest = [] then
        some [b64Val c0 * 4 + b64Val c1 / 16, b64Val c1 % 16 * 16 + b64Val c2 / 4]
      else none
    else
      (b64Decode rest).map (fun bs =>
        (b64Val c0 * 4 + b64Val c1 / 16) ::
          (b64Val c1 % 16 * 16 + b64Val c2 / 4) ::
          (b64Val c2 % 4 * 64 + b64Val c3) :: bs)
  | _ => none

/-! ### `escape` and `decodeURIComponent`

The embedded script decodes with `decodeURIComponent(escape(window.atob(b64Data)))`
(app.py line 186).  `atob` yields a string whose code points are the decoded
byte values; JS `escape` leaves `A-Z a-z 0-9 @ * _ + - . /` untouched and
percent-encodes every other code point below 256 as `%XX` (uppercase hex);
`decodeURIComponent` turns `%XX` sequences back into bytes and interprets the
resulting byte stream as UTF-8 (on `escape` output every unescaped code point
is ASCII, so passing it through as its own byte is exact). -/

/-- Code points JS `escape` leaves unescaped. -/
def escapeSafe (n : Nat) : Bool :=
  (65 ≤ n && n ≤ 90) || (97 ≤ n && n ≤ 122) || (48 ≤ n && n ≤ 57) ||
    n == 64 || n == 42 || n == 95 || n == 43 || n == 45 || n == 46 || n == 47

/-- Code point of the uppercase hexadecimal digit for `n < 16`. -/
def hexDigit (n : Nat) : Nat := if n < 10 then 48 + n else 55 + n

/-- JS `escape` on one code point (code points ≥ 256 use the `%uXXXX` form,
irrelevant for `atob` output, which is bytes). -/
def escapeCP (n : Nat) : List Nat :=
  if escapeSafe n then [n]
  else if n < 256 then [37, hexDigit (n / 16), hexDigit (n % 16)]
  else [37, 117, hexDigit (n / 4096 % 16), hexDigit (n / 256 % 16),
    hexDigit (n / 16 % 16), hexDigit (n % 16)]

/-- JS `escape` over a whole string of code points. -/
def escapeJS : List Nat → List Nat
  | [] => []
  | c :: rest => escapeCP c ++ escapeJS rest

/-- Value of a hexadecimal digit code point, `none` otherwise. -/
def hexVal (n : Nat) : Option Nat :=
  if 48 ≤ n ∧ n ≤ 57 then some (n - 48)
  else if 65 ≤ n ∧ n ≤ 70 then some (n - 55)
  else if 97 ≤ n ∧ n ≤ 102 then some (n - 87)
  else none

/-- Percent-decoding pass of `decodeURIComponent`: `%XX` becomes the byte `XX`,
any other code point stands for its own byte. -/
def pctDecodeBytes : List Nat → Option (List Nat)
  | [] => some []
  | c :: rest =>
    if c = 37 then
      if 2 ≤ rest.length then
        (hexVal (rest.getD 0 0)).bind (fun hv =>
          (hexVal (rest.getD 1 0)).bind (fun lv =>
            (pctDecodeBytes (rest.drop 2)).map (fun bs => (hv * 16 + lv) :: bs)))
      else none
    else
      (pctDecodeBytes rest).map (fun bs => c :: bs)
termination_by l => l.length
decreasing_by
  all_goals simp only [List.length_cons, List.length_drop]
  all_goals omega

/-- JS `decodeURIComponent`: percent-decode to a byte stream, then read it as
UTF-8 text. -/
def decodeURIComponentJS (cps : List Nat) : Option (List Char) :=
  (pctDecodeBytes cps).bind utf8Decode

/-! ### The preview encoder and the embedded client decoder -/

/-- The PreviewEncoder: UTF-8 encode the markup, then Base64
(app.py lines 158-160). -/
def previewEncode (s : List Char) : List Char :=
  b64Encode (utf8Encode s)

/-- The document's embedded client-side decode:
`decodeURIComponent(escape(window.atob(b64Data)))` (app.py line 186). -/
def clientDecode (b64 : List Char) : Option (List Char) :=
  (b64Decode b64).bind (fun bytes => decodeURIComponentJS (escapeJS bytes))

/-! ### DataFrame model

`pd.read_excel(..., header=None)` yields one rectangular frame per sheet.
A cell is `none` for NaN (a missing value) or `some s` for a value, with
every value kept as its display string (the value model the claims need).
A frame carries its column labels, its row index labels (which survive row
drops and slicing, so `iterrows` reports original positions), and the grid. -/

/-- A cell: `none` models pandas NaN, `some s` a (stringly-valued) cell. -/
abbrev Cell := Option String

deriving instance DecidableEq for Except

/-- Python `str.strip()`: drop leading and trailing whitespace (structurally,
so that it evaluates in the kernel; `String.trim` does not). -/
def pyStrip (s : String) : String :=
  String.mk ((s.data.dropWhile Char.isWhitespace).reverse.dropWhile Char.isWhitespace).reverse

/-- A pandas DataFrame: column labels, row index labels, row-major grid. -/
structure DF where
  cols : List String
  idx : List Nat
  rows : List (List Cell)
deriving DecidableEq, Repr

/-- Width of a raw grid (pandas pads ragged rows with NaN on read). -/
def gridWidth (g : List (List Cell)) : Nat :=
  g.foldr (fun r acc => max r.length acc) 0

/-- Pad one row to the frame width with NaN, as the reader does. -/
def padRow (w : Nat) (r : List Cell) : List Cell :=
  r ++ List.replicate (w - r.length) none

/-- A freshly read sheet: `RangeIndex` rows, positional column labels. -/
def toDF (g : List (List Cell)) : DF :=
  let w := gridWidth g
  { cols := (List.range w).map toString
    idx := List.range g.length
    rows := g.map (padRow w) }

/-- Pandas `df.empty`: true when either axis has length zero. -/
def dfEmpty (d : DF) : Bool := d.rows.isEmpty || d.cols.isEmpty

/-- Every row has exactly one cell per column label (frames are rectangular). -/
abbrev Rect (d : DF) : Prop := ∀ r ∈ d.rows, r.length = d.cols.length

/-- Cell of `d` at row position `i`, column position `j` (NaN when out of range). -/
def cellAt (d : DF) (i j : Nat) : Cell := (d.rows.getD i []).getD j none

/-! #### `clean_dataframe` step 1: `df.dropna(how='all', axis=0).dropna(how='all', axis=1)` -/

/-- Does a row carry at least one non-NaN cell? -/
def rowNonEmpty (r : List Cell) : Bool := r.any (fun c => c.isSome)

/-- Drop all-NaN rows, keeping index labels in sync (app.py line 50). -/
def dropRows (d : DF) : DF :=
  let keep := (d.idx.zip d.rows).filter (fun p => rowNonEmpty p.2)
  { d with idx := keep.map Prod.fst, rows := keep.map Prod.snd }

/-- Does column position `j` carry at least one non-NaN cell? -/
def colKeep (rows : List (List Cell)) (j : Nat) : Bool :=
  rows.any (fun r => (r.getD j none).isSome)

/-- Drop all-NaN columns (judged over the remaining rows), app.py line 50. -/
def dropCols (d : DF) : DF :=
  let keepIdx := (List.range d.cols.length).filter (colKeep d.rows)
  { cols := keepIdx.map (fun j => d.cols.getD j "")
    idx := d.idx
    rows := d.rows.map (fun r => keepIdx.map (fun j => r.getD j none)) }

/-- Step 1 of `clean_dataframe`: drop all-NaN rows, then all-NaN columns. -/
def dropStep (d : DF) : DF := dropCols (dropRows d)

/-! #### `clean_dataframe` step 2: heuristic header resolution (app.py lines 54-74) -/

/-- Python `str(val)` on a cell: `str(nan)` is the string `"nan"`
(this is what `.astype(str)` applies elementwise). -/
def astypeStr (c : Cell) : String := match c with | some s => s | none => "nan"

/-- Python `str(h) if pd.notna(h) else ""`. -/
def notnaStr (c : Cell) : String := match c with | some s => s | none => ""

/-- Row `df.iloc[0]`, the first remaining row. -/
def row0 (d : DF) : List Cell := d.rows.headD []

/-- Row `df.iloc[1]`, the second remaining row. -/
def row1 (d : DF) : List Cell := (d.rows.drop 1).headD []

/-- Count `df.iloc[0].isna().sum()`. -/
def nullCount0 (d : DF) : Nat := (row0 d).countP (fun c => c.isNone)

/-- Ratio `row0_empty_ratio = df.iloc[0].isna().sum() / df.shape[1]` (line 56); the
float division is modelled exactly as a rational. -/
def row0EmptyFrac (d : DF) : ℚ := (nullCount0 d : ℚ) / (d.cols.length : ℚ)

/-- Forward-fill a series left to right over NaN (`Series.ffill`). -/
def ffillGo (last : Cell) : List Cell → List Cell
  | [] => []
  | c :: rest =>
    match c with
    | some v => some v :: ffillGo (some v) rest
    | none => last :: ffillGo last rest

/-- Pandas `Series.ffill()`, no preceding value for a leading NaN. -/
def ffillSeries (l : List Cell) : List Cell := ffillGo none l

/-- Label built from a forward-filled row-0 cell and a row-1 cell
(app.py lines 66-72): `h0_h1` when both non-empty and different, else
`h1 if h1 else h0`. -/
def mkMergedLabel (c0 c1 : Cell) : String :=
  let h0 := notnaStr c0
  let h1 := notnaStr c1
  if h0 ≠ "" ∧ h1 ≠ "" ∧ h0 ≠ h1 then h0 ++ "_" ++ h1
  else if h1 ≠ "" then h1
  else h0

/-- Strategy A (app.py lines 58-60): `df.columns = df.iloc[0].astype(str).fillna('')`
— note `astype(str)` stringifies NaN to `"nan"` first, so the subsequent
`fillna('')` finds no NaN left — then `df = df.iloc[1:]`. -/
def singleHeaderOf (d : DF) : DF :=
  { cols := (row0 d).map astypeStr
    idx := d.idx.drop 1
    rows := d.rows.drop 1 }

/-- Strategy B (app.py lines 62-74): forward-fill row 0, pair with row 1,
build merged labels, `df = df.iloc[2:]`. -/
def mergedHeaderOf (d : DF) : DF :=
  { cols := List.zipWith mkMergedLabel (ffillSeries (row0 d)) (row1 d)
    idx := d.idx.drop 2
    rows := d.rows.drop 2 }

/-- Step 2 of `clean_dataframe` (run only when `len(df) > 1`).  The Python
guard is `row0_empty_ratio < 0.5` on floats; for every reachable width the
float test decides exactly as the integer test `2 * count < width` (for
`width = 0` Python gets `nan < 0.5`, false, likewise matched), which keeps the
definition kernel-computable.  `row0EmptyFrac` above states the same fraction
with exact rational arithmetic; the two are proved equivalent below. -/
def headerStep (d : DF) : DF :=
  if 2 * nullCount0 d < d.cols.length then singleHeaderOf d else mergedHeaderOf d

/-! #### `clean_dataframe` step 3: `df[cols_to_fill] = df[cols_to_fill].ffill()`
(app.py lines 79-81)

`cols_to_fill = df.columns[:min(2, df.shape[1])]` is a pair of *labels*, and
pandas selection/assignment is label-based.  When a selected label is unique
in `df.columns` it denotes exactly its own position (0, then 1) and that
column is forward-filled.  When a selected label is duplicated, pandas 2.x
`DataFrame.__setitem__` (`_setitem_array` → per-key `self[k1] = value[k2]` →
`_set_item_frame_value`'s non-unique-columns branch) raises before writing
that key — so a duplicated first label aborts with nothing filled, and a
duplicated second label aborts after column 0 was already assigned.  The
exception escapes to `clean_dataframe`'s outer `except`, which returns the
frame as it stands, skipping step 4. -/

/-- Column `j` of the grid. -/
def getColumn (j : Nat) (rows : List (List Cell)) : List Cell :=
  rows.map (fun r => r.getD j none)

/-- Replace column `j` of the grid by `vals` (same row count). -/
def setColumn (j : Nat) (vals : List Cell) (rows : List (List Cell)) :
    List (List Cell) :=
  List.zipWith (fun r v => r.set j v) rows vals

/-- Forward-fill column `j` downwards over NaN. -/
def ffillColumn (j : Nat) (rows : List (List Cell)) : List (List Cell) :=
  setColumn j (ffillSeries (getColumn j rows)) rows

/-- Step 3 core.  Returns the frame and `true`, or the partially updated frame
and `false` when the label-based assignment raised (duplicated label). -/
def ffillTwoCols (d : DF) : DF × Bool :=
  let l0 := d.cols.getD 0 ""
  if d.cols.count l0 ≠ 1 then (d, false)
  else
    let d1 : DF := { d with rows := ffillColumn 0 d.rows }
    if d.cols.length ≤ 1 then (d1, true)
    else
      let l1 := d.cols.getD 1 ""
      if d.cols.count l1 ≠ 1 then (d1, false)
      else ({ d1 with rows := ffillColumn 1 d1.rows }, true)

/-- Step 3 with its guard `if not df.empty and df.shape[1] > 0` (line 79). -/
def ffillStepGuard (d : DF) : DF × Bool :=
  if ¬ dfEmpty d then ffillTwoCols d else (d, true)

/-- Step 4: `df = df.fillna('')` (line 84). -/
def fillnaStep (d : DF) : DF :=
  { d with rows := d.rows.map (fun r => r.map (fun c => some (notnaStr c))) }

/-- Function `clean_dataframe` (app.py lines 44-88): drop empty rows/columns, return
early if nothing remains, resolve headers when more than one row remains,
forward-fill the first two columns, replace remaining NaN with `''`.  A step-3
exception is caught by the outer `except`, which returns the frame as it then
stands (step 4 skipped). -/
def clean_dataframe (d : DF) : DF :=
  let d1 := dropStep d
  if dfEmpty d1 then d1
  else
    let d2 := if 1 < d1.rows.length then headerStep d1 else d1
    let fr := ffillStepGuard d2
    if fr.2 then fillnaStep fr.1 else fr.1

/-! ### Semantic summary (app.py lines 110-125)

`for i, row in df.head(50).iterrows()` walks the first 50 rows with their
*index labels* `i` (original row positions, preserved by the drops and
slices), collects the `col:val` pairs whose stripped value is non-empty,
and, when any survive, appends `来源表:<sheet> | 行号:<i+1> | ` followed by
the pairs joined with `" , "`. -/

/-- Inner loop: `parts.append(f"{col}:{str(val).strip()}")` for non-empty
stripped values. -/
def summaryParts (headers : List String) (row : List Cell) : List String :=
  (headers.zip row).foldl
    (fun ps p =>
      if pyStrip (astypeStr p.2) ≠ "" then ps ++ [p.1 ++ ":" ++ pyStrip (astypeStr p.2)]
      else ps)
    []

/-- One summary line: row context plus joined parts (app.py lines 122-123). -/
def summaryLine (sheetName : String) (i : Nat) (parts : List String) : String :=
  "来源表:" ++ sheetName ++ " | 行号:" ++ toString (i + 1) ++ " | " ++
    String.intercalate " , " parts

/-- Outer loop over `df.head(50).iterrows()`, appending one line per row
whose parts list is non-empty. -/
def summaryLines (sheetName : String) (d : DF) : List String :=
  ((d.idx.zip d.rows).take 50).foldl
    (fun acc p =>
      let parts := summaryParts d.cols p.2
      if ¬ parts.isEmpty then acc ++ [summaryLine sheetName p.1 parts] else acc)
    []

/-! ### Per-sheet task and dispatch (app.py lines 90-237)

`process_single_sheet_task` cleans the sheet, returns `None` when nothing
remains, otherwise builds the fragment.  The fragment is modelled by the
data the source interpolates into its markup: sheet name, anchor id
(`"sheet_" + uuid4().hex[:8]`, the random id supplied here as an oracle
argument), summary lines, the capped tables behind the markdown and preview
renderings, and the truncation flag.  `excel_to_html_fast` runs the tasks
inline for a single sheet and under the 4-worker `ProcessPoolExecutor`
otherwise, collecting `results[name] = (content, sheet_id)` into a dict. -/

/-- Constant `MAX_RAG_ROWS` (app.py line 30). -/
def MAX_RAG_ROWS : Nat := 1000

/-- Constant `MAX_PREVIEW_ROWS` (app.py line 31). -/
def MAX_PREVIEW_ROWS : Nat := 3000

/-- Pandas `df.head(n)`. -/
def dfHead (n : Nat) (d : DF) : DF :=
  { d with idx := d.idx.take n, rows := d.rows.take n }

/-- The data interpolated into one sheet's fragment markup. -/
structure Fragment where
  sheetName : String
  anchorId : String
  summary : List String
  ragTable : DF
  previewTable : DF
  truncated : Bool
deriving DecidableEq, Repr

/-- Task `process_single_sheet_task` (app.py lines 90-200): `None` for a sheet that
cleans to empty, else `(sheet_name, fragment, safe_sheet_id)`.  `uid` stands
for `uuid.uuid4().hex[:8]`. -/
def process_single_sheet_task (uid : String) (sheetName : String) (df : DF) :
    Option (String × Fragment × String) :=
  let d := clean_dataframe df
  if dfEmpty d then none
  else
    let sid := "sheet_" ++ uid
    some (sheetName,
      { sheetName := sheetName
        anchorId := sid
        summary := summaryLines sheetName d
        ragTable := dfHead MAX_RAG_ROWS d
        previewTable := dfHead MAX_PREVIEW_ROWS d
        truncated := MAX_PREVIEW_ROWS < d.rows.length },
      sid)

/-- The `results` dict: sheet name to `(content, sheet_id)`. -/
abbrev ResultMap := List (String × (Fragment × String))

/-- Python dict insertion: an existing key keeps its position and takes the
new value; a new key goes to the end. -/
def dictInsert (k : String) (v : Fragment × String) : ResultMap → ResultMap
  | [] => [(k, v)]
  | (k2, v2) :: rest =>
    if k2 = k then (k2, v) :: rest else (k2, v2) :: dictInsert k v rest

/-- Sequential branch (app.py lines 232-234): `_, content, sheet_id =
process_single_sheet_task(name, df)` — unpacking the `None` returned for an
empty sheet raises `TypeError`, which nothing here catches (`Except.error`). -/
def seqGo (ids : Nat → String) : Nat → ResultMap → List (String × DF) →
    Except Unit ResultMap
  | _, acc, [] => .ok acc
  | i, acc, (name, df) :: rest =>
    match process_single_sheet_task (ids i) name df with
    | none => .error ()
    | some (_, frag, sid) => seqGo ids (i + 1) (dictInsert name (frag, sid) acc) rest

/-- The value `future.result()` yields for the task submitted at position `i`
(deterministic once the uuid oracle `ids` is fixed). -/
def taskResult (ids : Nat → String) (dfs : List (String × DF)) (i : Nat) :
    Option (String × Fragment × String) :=
  match dfs[i]? with
  | some (name, df) => process_single_sheet_task (ids i) name df
  | none => none

/-- Pool branch (app.py lines 224-230).  Workers finish in an arbitrary
completion order `perm` (a permutation of the submission positions), filling
the store; the collection loop `for future in futures` then walks the futures
dict in submission order, `future.result()` being a store lookup.  Unpacking a
`None` result raises inside the `try` and is swallowed by `except: pass`. -/
def parDispatch (ids : Nat → String) (perm : List Nat) (dfs : List (String × DF)) :
    ResultMap :=
  let store := perm.map (fun i => (i, taskResult ids dfs i))
  (List.range dfs.length).foldl
    (fun acc i =>
      match store.lookup i with
      | some (some (n, frag, sid)) => dictInsert n (frag, sid) acc
      | _ => acc)
    []

/-- Dispatcher `excel_to_html_fast` after the workbook has been decoded into per-sheet
frames (app.py lines 221-237): pool when more than one sheet, inline loop
otherwise. -/
def excel_to_html_fast (ids : Nat → String) (perm : List Nat)
    (dfs : List (String × DF)) : Except Unit ResultMap :=
  if 1 < dfs.length then .ok (parDispatch ids perm dfs)
  else seqGo ids 0 [] dfs

/-! ### The `/process` route (app.py lines 241-328) -/

/-- The assembled document: either the minimal placeholder shell written when
no sheet survives (line 315), or the TOC (anchor, name) pairs and the fragment
bodies concatenated in mapping order (lines 250-311). -/
inductive CombinedDoc where
  | emptyDoc : CombinedDoc
  | assembled (toc : List (String × String)) (body : List Fragment) : CombinedDoc
deriving DecidableEq, Repr

/-- The JSON payload: the sheets mapping and the combined document. -/
structure ProcessResponse where
  sheets : ResultMap
  combined : CombinedDoc
deriving DecidableEq, Repr

/-- The `/process` route body: dispatch, build the TOC and the combined
document, substitute the placeholder when `sheets_data` is empty; any escaped
exception becomes the 500 error response (line 326-328). -/
def processRoute (ids : Nat → String) (perm : List Nat)
    (dfs : List (String × DF)) : Except Unit ProcessResponse :=
  match excel_to_html_fast ids perm dfs with
  | .error e => .error e
  | .ok sheets_data =>
    let toc := sheets_data.map (fun p => (p.2.2, p.1))
    let body := sheets_data.map (fun p => p.2.1)
    .ok { sheets := sheets_data
          combined := if sheets_data.isEmpty then .emptyDoc else .assembled toc body }

/-! ### Specification-side definitions

These restate rules in the spec's own words, for comparison with the
translated code. -/

/-- Merged-header label rule as the spec words it: h0 and h1 joined by an
underscore when both are non-empty and differ, else h1 if non-empty, else h0,
else empty. -/
def mkMergedLabelSpec (c0 c1 : Cell) : String :=
  let h0 := notnaStr c0
  let h1 := notnaStr c1
  if h0 ≠ "" ∧ h1 ≠ "" ∧ h0 ≠ h1 then h0 ++ "_" ++ h1
  else if h1 ≠ "" then h1
  else if h0 ≠ "" then h0
  else ""

/-- Semantic line for one (index label, row) pair as the spec words it: the
non-empty `column:value` pairs, prefixed by the sheet name and the 1-based
original row number, or nothing when every cell is empty after trimming. -/
def semLineSpec (sheetName : String) (headers : List String) (p : Nat × List Cell) :
    Option String :=
  let parts := (headers.zip p.2).filterMap (fun q =>
    if pyStrip (astypeStr q.2) ≠ "" then some (q.1 ++ ":" ++ pyStrip (astypeStr q.2))
    else none)
  if parts = [] then none
  else some (summaryLine sheetName p.1 parts)

/-! ### Concrete example inputs -/

/-- Shorthand for a filled cell. -/
def sv (x : String) : Cell := some x

/-- Deterministic stand-in for the per-task `uuid4().hex[:8]` values. -/
def uidsDemo : Nat → String := fun i => toString i

/-- Scenario A grid: header row `["Name","Age"]`, data row `["Alice","30"]`. -/
def gridA : List (List Cell) := [[sv "Name", sv "Age"], [sv "Alice", sv "30"]]

/-- A grid with a NaN header cell over a non-empty column. -/
def gridNanHeader : List (List Cell) :=
  [[sv "Name", sv "Age", none], [sv "Alice", sv "30", sv "x"], [sv "Bob", sv "25", sv "y"]]

/-- A small non-empty grid. -/
def gridGood1 : List (List Cell) := [[sv "a", sv "b"], [sv "1", sv "2"], [sv "3", sv "4"]]

/-- Another small non-empty grid. -/
def gridGood2 : List (List Cell) := [[sv "x", sv "y"], [sv "5", sv "6"], [sv "7", sv "8"]]

/-- A workbook whose two sheets are both literally named `Data`. -/
def wbData : List (String × DF) := [("Data", toDF gridGood1), ("Data", toDF gridGood2)]

/-- A sheet set mixing an empty sheet with a surviving one. -/
def wbMixed : List (String × DF) := [("A", toDF [[none]]), ("B", toDF gridGood2)]

/-- Two distinctly named non-empty sheets. -/
def wbTwo : List (String × DF) := [("S1", toDF gridGood1), ("S2", toDF gridGood2)]

/-- A merged-header frame: sparse first row over a real header row. -/
def dfSales : DF := toDF [[sv "Sales", none], [sv "Region", sv "Q1"], [sv "N", sv "1"]]

/-! ### Theorems -/
theorem charOfNat_toNat (c : Char) : Char.ofNat c.toNat = c := by
  have hv : c.toNat.isValidChar := c.valid
  unfold Char.ofNat
  rw [dif_pos hv]
  rfl

theorem utf8EncodeChar_lt (n : Nat) (hn : n < 0x110000) : ∀ b ∈ utf8EncodeChar n, b < 256 := by
  intro b hb
  unfold utf8EncodeChar at hb
  split at hb
  · simp only [List.mem_singleton] at hb; omega
  · split at hb
    · simp only [List.mem_cons, List.not_mem_nil, or_false] at hb
      rcases hb with rfl | rfl <;> omega
    · split at hb
      · simp only [List.mem_cons, List.not_mem_nil, or_false] at hb
        rcases hb with rfl | rfl | rfl <;> omega
      · simp only [List.mem_cons, List.not_mem_nil, or_false] at hb
        rcases hb with rfl | rfl | rfl | rfl <;> omega

theorem utf8Decode_encodeNat (n : Nat) (hlt : n < 0x110000) (rest : List Nat) :
    utf8Decode (utf8EncodeChar n ++ rest) =
      (utf8Decode rest).map (fun cs => Char.ofNat n :: cs) := by
  by_cases h1 : n < 0x80
  · have e1 : utf8EncodeChar n = [n] := by unfold utf8EncodeChar; rw [if_pos h1]
    rw [e1, List.cons_append, List.nil_append, utf8Decode]
    rw [if_pos h1]
  · by_cases h2 : n < 0x800
    · have e1 : utf8EncodeChar n = [0xC0 + n / 64, 0x80 + n % 64] := by
        unfold utf8EncodeChar; rw [if_neg h1, if_pos h2]
      have c1 : ¬ (0xC0 + n / 64 < 0x80) := by omega
      have c2 : ¬ (0xC0 + n / 64 < 0xC0) := by omega
      have c3 : 0xC0 + n / 64 < 0xE0 := by omega
      have c4 : isCont (0x80 + n % 64) = true := by
        simp only [isCont, Bool.and_eq_true, decide_eq_true_eq]; omega
      rw [e1, List.cons_append, List.cons_append, List.nil_append, utf8Decode]
      rw [if_neg c1, if_neg c2, if_pos c3]
      rw [if_pos (by refine ⟨by simp, ?_⟩; simpa using c4)]
      simp only [List.getD_cons_zero, List.drop_succ_cons, List.drop_zero]
      have c7 : (0xC0 + n / 64 - 0xC0) * 64 + (0x80 + n % 64 - 0x80) = n := by omega
      rw [c7]
    · by_cases h3 : n < 0x10000
      · have e1 : utf8EncodeChar n = [0xE0 + n / 4096, 0x80 + n / 64 % 64, 0x80 + n % 64] := by
          unfold utf8EncodeChar; rw [if_neg h1, if_neg h2, if_pos h3]
        have c1 : ¬ (0xE0 + n / 4096 < 0x80) := by omega
        have c2 : ¬ (0xE0 + n / 4096 < 0xC0) := by omega
        have c3 : ¬ (0xE0 + n / 4096 < 0xE0) := by omega
        have c4 : 0xE0 + n / 4096 < 0xF0 := by omega
        have c5 : isCont (0x80 + n / 64 % 64) = true := by
          simp only [isCont, Bool.and_eq_true, decide_eq_true_eq]; omega
        have c6 : isCont (0x80 + n % 64) = true := by
          simp only [isCont, Bool.and_eq_true, decide_eq_true_eq]; omega
        rw [e1, List.cons_append, List.cons_append, List.cons_append, List.nil_append,
          utf8Decode]
        rw [if_neg c1, if_neg c2, if_neg c3, if_pos c4]
        rw [if_pos (by
          refine ⟨by simp, ?_, ?_⟩
          · simpa using c5
          · simpa using c6)]
        simp only [List.getD_cons_zero, List.getD_cons_succ, List.drop_succ_cons,
          List.drop_zero]
        have d1 : n / 64 / 64 = n / 4096 := by
          rw [Nat.div_div_eq_div_mul]
        have c7 : (0xE0 + n / 4096 - 0xE0) * 4096 + (0x80 + n / 64 % 64 - 0x80) * 64 +
            (0x80 + n % 64 - 0x80) = n := by omega
        rw [c7]
      · have e1 : utf8EncodeChar n =
            [0xF0 + n / 262144, 0x80 + n / 4096 % 64, 0x80 + n / 64 % 64, 0x80 + n % 64] := by
          unfold utf8EncodeChar; rw [if_neg h1, if_neg h2, if_neg h3]
        have c1 : ¬ (0xF0 + n / 262144 < 0x80) := by omega
        have c2 : ¬ (0xF0 + n / 262144 < 0xC0) := by omega
        have c3 : ¬ (0xF0 + n / 262144 < 0xE0) := by omega
        have c4 : ¬ (0xF0 + n / 262144 < 0xF0) := by omega
        have c5 : 0xF0 + n / 262144 < 0xF8 := by omega
        have c6 : isCont (0x80 + n / 4096 % 64) = true := by
          simp only [isCont, Bool.and_eq_true, decide_eq_true_eq]; omega
        have c6b : isCont (0x80 + n / 64 % 64) = true := by
          simp only [isCont, Bool.and_eq_true, decide_eq_true_eq]; omega
        have c6c : isCont (0x80 + n % 64) = true := by
          simp only [isCont, Bool.and_eq_true, decide_eq_true_eq]; omega
        rw [e1, List.cons_append, List.cons_append, List.cons_append, List.cons_append,
          List.nil_append, utf8Decode]
        rw [if_neg c1, if_neg c2, if_neg c3, if_neg c4, if_pos c5]
        rw [if_pos (by
          refine ⟨by simp, ?_, ?_, ?_⟩
          · simpa using c6
          · simpa using c6b
          · simpa using c6c)]
        simp only [List.getD_cons_zero, List.getD_cons_succ, List.drop_succ_cons,
          List.drop_zero]
        have d1 : n / 64 / 64 = n / 4096 := by
          rw [Nat.div_div_eq_div_mul]
        have d2 : n / 4096 / 64 = n / 262144 := by
          rw [Nat.div_div_eq_div_mul]
        have c7 : (0xF0 + n / 262144 - 0xF0) * 262144 + (0x80 + n / 4096 % 64 - 0x80) * 4096 +
            (0x80 + n / 64 % 64 - 0x80) * 64 + (0x80 + n % 64 - 0x80) = n := by omega
        rw [c7]

theorem utf8Decode_encodeChar (c : Char) (rest : List Nat) :
    utf8Decode (utf8EncodeChar c.toNat ++ rest) = (utf8Decode rest).map (fun cs => c :: cs) := by
  have hlt : c.toNat < 0x110000 := by
    have hv : c.toNat.isValidChar := c.valid
    rcases hv with h | ⟨hh1, hh2⟩
    · omega
    · omega
  rw [utf8Decode_encodeNat c.toNat hlt rest, charOfNat_toNat]

theorem utf8_roundtrip (s : List Char) : utf8Decode (utf8Encode s) = some s := by
  induction s with
  | nil => rw [utf8Encode, utf8Decode]
  | cons c rest ih =>
    rw [utf8Encode, utf8Decode_encodeChar, ih]
    rfl

theorem b64Val_alphabet : ∀ n, n < 64 → b64Val (b64Alphabet n) = n := by decide

theorem b64Alphabet_ne_eq : ∀ n, n < 64 → b64Alphabet n ≠ '=' := by decide

theorem b64_roundtrip : ∀ bs : List Nat, (∀ b ∈ bs, b < 256) →
    b64Decode (b64Encode bs) = some bs := by
  intro bs
  induction bs using b64Encode.induct with
  | case1 =>
    intro _
    rw [b64Encode, b64Decode]
  | case2 a =>
    intro hmem
    have ha : a < 256 := hmem a (by simp)
    rw [b64Encode, b64Decode]
    rw [if_pos rfl, if_pos ⟨rfl, rfl⟩]
    rw [b64Val_alphabet (a / 4) (by omega), b64Val_alphabet (a % 4 * 16) (by omega)]
    have e1 : a / 4 * 4 + a % 4 * 16 / 16 = a := by omega
    rw [e1]
  | case3 a b =>
    intro hmem
    have ha : a < 256 := hmem a (by simp)
    have hb : b < 256 := hmem b (by simp)
    rw [b64Encode, b64Decode]
    rw [if_neg (b64Alphabet_ne_eq (b % 16 * 4) (by omega))]
    rw [if_pos rfl, if_pos rfl]
    rw [b64Val_alphabet (a / 4) (by omega), b64Val_alphabet (a % 4 * 16 + b / 16) (by omega),
      b64Val_alphabet (b % 16 * 4) (by omega)]
    have e1 : a / 4 * 4 + (a % 4 * 16 + b / 16) / 16 = a := by omega
    have e2 : (a % 4 * 16 + b / 16) % 16 * 16 + b % 16 * 4 / 4 = b := by omega
    rw [e1, e2]
  | case4 a b c rest ih =>
    intro hmem
    have ha : a < 256 := hmem a (by simp)
    have hb : b < 256 := hmem b (by simp)
    have hc : c < 256 := hmem c (by simp)
    have hrest : ∀ x ∈ rest, x < 256 := fun x hx => hmem x (by simp [hx])
    rw [b64Encode, b64Decode]
    rw [if_neg (b64Alphabet_ne_eq (b % 16 * 4 + c / 64) (by omega))]
    rw [if_neg (b64Alphabet_ne_eq (c % 64) (by omega))]
    rw [ih hrest]
    rw [b64Val_alphabet (a / 4) (by omega), b64Val_alphabet (a % 4 * 16 + b / 16) (by omega),
      b64Val_alphabet (b % 16 * 4 + c / 64) (by omega), b64Val_alphabet (c % 64) (by omega)]
    have e1 : a / 4 * 4 + (a % 4 * 16 + b / 16) / 16 = a := by omega
    have e2 : (a % 4 * 16 + b / 16) % 16 * 16 + (b % 16 * 4 + c / 64) / 4 = b := by omega
    have e3 : (b % 16 * 4 + c / 64) % 4 * 64 + c % 64 = c := by omega
    rw [e1, e2, e3]
    rfl

theorem hexVal_hexDigit : ∀ x, x < 16 → hexVal (hexDigit x) = some x := by decide

theorem escapeSafe_ne_37 (n : Nat) (h : escapeSafe n = true) : n ≠ 37 := by
  intro hn
  subst hn
  simp [escapeSafe] at h

theorem pctDecodeBytes_escape : ∀ bs : List Nat, (∀ b ∈ bs, b < 256) →
    pctDecodeBytes (escapeJS bs) = some bs := by
  intro bs
  induction bs with
  | nil =>
    intro _
    rw [escapeJS, pctDecodeBytes]
  | cons b rest ih =>
    intro hmem
    have hb : b < 256 := hmem b (by simp)
    have hrest := ih (fun x hx => hmem x (by simp [hx]))
    rw [escapeJS]
    by_cases hsafe : escapeSafe b = true
    · have e1 : escapeCP b = [b] := by unfold escapeCP; rw [if_pos hsafe]
      rw [e1, List.cons_append, List.nil_append, pctDecodeBytes]
      rw [if_neg (escapeSafe_ne_37 b hsafe), hrest]
      rfl
    · have e1 : escapeCP b = [37, hexDigit (b / 16), hexDigit (b % 16)] := by
        unfold escapeCP
        rw [if_neg hsafe, if_pos hb]
      rw [e1, List.cons_append, List.cons_append, List.cons_append, List.nil_append,
        pctDecodeBytes]
      rw [if_pos rfl, if_pos (by simp)]
      have e2 : b / 16 * 16 + b % 16 = b := by omega
      simp only [List.getD_cons_zero, List.getD_cons_succ, List.drop_succ_cons,
        List.drop_zero, hexVal_hexDigit (b / 16) (by omega : b / 16 < 16),
        hexVal_hexDigit (b % 16) (by omega : b % 16 < 16), Option.some_bind' , hrest,
        Option.map_eq_map]
      simp only [e2, Option.map_eq_map, Option.map_some']

theorem utf8Encode_lt (s : List Char) : ∀ b ∈ utf8Encode s, b < 256 := by
  induction s with
  | nil => intro b hb; rw [utf8Encode] at hb; cases hb
  | cons c rest ih =>
    intro b hb
    rw [utf8Encode] at hb
    rcases List.mem_append.mp hb with h | h
    · have hlt : c.toNat < 0x110000 := by
        have hv : c.toNat.isValidChar := c.valid
        rcases hv with h1 | ⟨h1, h2⟩
        · omega
        · omega
      exact utf8EncodeChar_lt c.toNat hlt b h
    · exact ih b h

/-- C1. For every text `s`, encoding as the PreviewEncoder does (Base64 over
the UTF-8 bytes of `s`) and then applying the document's embedded client-side
decode (`atob` followed by `decodeURIComponent(escape(...))`) yields exactly
`s` — no mojibake. -/
theorem C1_preview_roundtrip (s : List Char) : clientDecode (previewEncode s) = some s := by
  unfold clientDecode previewEncode
  rw [b64_roundtrip (utf8Encode s) (utf8Encode_lt s)]
  show decodeURIComponentJS (escapeJS (utf8Encode s)) = some s
  unfold decodeURIComponentJS
  rw [pctDecodeBytes_escape (utf8Encode s) (utf8Encode_lt s)]
  show utf8Decode (utf8Encode s) = some s
  exact utf8_roundtrip s

/-- C6, code evaluated at the failing input: in single-row-header mode a NaN
header cell yields the column label `"nan"` (from `astype(str)`), not the
empty string the claim requires — the subsequent `fillna('')` finds no NaN
left to replace. -/
theorem C6_nan_header_label :
    (clean_dataframe (toDF gridNanHeader)).cols = ["Name", "Age", "nan"] ∧
    (clean_dataframe (toDF gridNanHeader)).cols ≠ ["Name", "Age", ""] := by
  constructor
  · decide
  · decide

/-- C10 counterexample: the full cleaning function is not idempotent — on an
already-cleaned table it re-runs header resolution and strips the first data
row into a header. -/
theorem C10_counterexample :
    clean_dataframe (clean_dataframe (toDF gridNanHeader)) ≠
      clean_dataframe (toDF gridNanHeader) := by decide

/-- C9 counterexample: at scenario A the semantic line is not the literal
`source:... | row:... ` prefixed string the claim gives (the code writes the
`来源表:`/`行号:` prefixes). -/
theorem C9_counterexample :
    summaryLines "Sheet1" (clean_dataframe (toDF gridA)) ≠
      ["source:Sheet1 | row:2 | Name:Alice , Age:30"] := by decide

/-- C2 counterexample: a workbook with two non-empty sheets both literally
named `Data` yields a fragment mapping with a single entry and a single TOC
entry — the mapping is a dict keyed by sheet name, so the claimed two
fragments are not both present. -/
theorem C2_counterexample :
    (excel_to_html_fast uidsDemo [0, 1] wbData).map (fun m => m.map Prod.fst)
        = .ok ["Data"] ∧
    (processRoute uidsDemo [0, 1] wbData).map (fun r =>
        match r.combined with
        | .assembled toc _ => toc.length
        | .emptyDoc => 0) = .ok 1 := by
  constructor
  · decide
  · decide

/-- C3, code evaluated at the failing input: a workbook whose single sheet is
empty makes the sequential branch unpack `None` (a `TypeError`), so the caller
gets the 500 error, not the placeholder; with more than one sheet, empty
sheets are silently omitted, and when none survives the placeholder document
is returned. -/
theorem C3_empty_workbook :
    processRoute uidsDemo [0] [("Sheet1", toDF [[none, none]])] = .error () ∧
    processRoute uidsDemo [0, 1] [("A", toDF [[none]]), ("B", toDF [[none]])] =
      .ok { sheets := [], combined := .emptyDoc } ∧
    (excel_to_html_fast uidsDemo [0, 1, 2]
        [("A", toDF [[none]]), ("B", toDF gridGood1), ("C", toDF gridGood2)]).map
        (fun m => m.map Prod.fst) = .ok ["B", "C"] := by
  refine ⟨by decide, by decide, by decide⟩

theorem row0Frac_lt_half_iff (d : DF) (hw : 0 < d.cols.length) :
    (row0EmptyFrac d < 1 / 2) ↔ 2 * nullCount0 d < d.cols.length := by
  unfold row0EmptyFrac
  have hw2 : (0 : ℚ) < (d.cols.length : ℚ) := by exact_mod_cast hw
  rw [div_lt_div_iff₀ hw2 (by norm_num : (0 : ℚ) < 2), one_mul, mul_comm]
  exact_mod_cast Iff.rfl

/-- C5. For every cleaned grid with more than one remaining row (and at least
one column), header resolution chooses single-row-header mode exactly when the
fraction of null cells in row 0 is strictly below one half, and merged-header
mode exactly when that fraction is at least one half. -/
theorem C5_header_mode (d : DF) (hw : 0 < d.cols.length) (hr : 1 < d.rows.length) :
    (headerStep d = singleHeaderOf d ↔ row0EmptyFrac d < 1 / 2) ∧
    (headerStep d = mergedHeaderOf d ↔ 1 / 2 ≤ row0EmptyFrac d) := by
  have hiff := row0Frac_lt_half_iff d hw
  have hne : singleHeaderOf d ≠ mergedHeaderOf d := by
    intro h
    have h1 := congrArg (fun x => x.rows.length) h
    simp only [singleHeaderOf, mergedHeaderOf, List.length_drop] at h1
    omega
  unfold headerStep
  by_cases hc : 2 * nullCount0 d < d.cols.length
  · rw [if_pos hc]
    refine ⟨⟨fun _ => hiff.mpr hc, fun _ => rfl⟩, ⟨fun h => absurd h hne, fun h => ?_⟩⟩
    exact absurd (hiff.mpr hc) (not_lt.mpr h)
  · rw [if_neg hc]
    refine ⟨⟨fun h => absurd h.symm hne, fun h => ?_⟩, ⟨fun _ => ?_, fun _ => rfl⟩⟩
    · exact absurd (hiff.mp h) hc
    · exact le_of_not_lt (fun h2 => hc (hiff.mp h2))

theorem C5_header_mode_witness :
    (0 < (toDF gridA).cols.length ∧ 1 < (toDF gridA).rows.length) ∧
    ((headerStep (toDF gridA) = singleHeaderOf (toDF gridA) ↔
        row0EmptyFrac (toDF gridA) < 1 / 2) ∧
      (headerStep (toDF gridA) = mergedHeaderOf (toDF gridA) ↔
        1 / 2 ≤ row0EmptyFrac (toDF gridA))) :=
  ⟨⟨by decide, by decide⟩, C5_header_mode (toDF gridA) (by decide) (by decide)⟩

theorem mkMergedLabel_eq_spec (c0 c1 : Cell) :
    mkMergedLabel c0 c1 = mkMergedLabelSpec c0 c1 := by
  unfold mkMergedLabel mkMergedLabelSpec
  dsimp only
  split_ifs with h1 h2 h3 <;> simp_all

/-- C7. In two-row merged-header mode the column labels are exactly the
spec's rule applied to the forward-filled row 0 paired with row 1 — `h0_h1`
when both are non-empty and differ, else h1 if non-empty, else h0, else
empty — data starts at row 2, and the four example pairs resolve as the
spec lists them. -/
theorem C7_merged_labels (d : DF) (hw : 0 < d.cols.length) (_hr : 1 < d.rows.length)
    (hm : 1 / 2 ≤ row0EmptyFrac d) :
    headerStep d = mergedHeaderOf d ∧
    (headerStep d).cols =
      List.zipWith mkMergedLabelSpec (ffillSeries (row0 d)) (row1 d) ∧
    (headerStep d).rows = d.rows.drop 2 ∧
    mkMergedLabel (sv "Region") (sv "Q1") = "Region_Q1" ∧
    mkMergedLabel (sv "Region") (sv "Region") = "Region" ∧
    mkMergedLabel (sv "") (sv "Q1") = "Q1" ∧
    mkMergedLabel (sv "Region") (sv "") = "Region" := by
  have hnotlt : ¬ (2 * nullCount0 d < d.cols.length) := fun hlt =>
    absurd ((row0Frac_lt_half_iff d hw).mpr hlt) (not_lt.mpr hm)
  have hmerged : headerStep d = mergedHeaderOf d := by
    unfold headerStep
    rw [if_neg hnotlt]
  refine ⟨hmerged, ?_, ?_, by decide, by decide, by decide, by decide⟩
  · rw [hmerged]
    show List.zipWith mkMergedLabel _ _ = _
    have : mkMergedLabel = mkMergedLabelSpec := funext fun a => funext fun b =>
      mkMergedLabel_eq_spec a b
    rw [this]
  · rw [hmerged]
    rfl

theorem C7_merged_labels_witness :
    1 / 2 ≤ row0EmptyFrac dfSales ∧
    (headerStep dfSales = mergedHeaderOf dfSales ∧
      (headerStep dfSales).cols =
        List.zipWith mkMergedLabelSpec (ffillSeries (row0 dfSales)) (row1 dfSales) ∧
      (headerStep dfSales).rows = dfSales.rows.drop 2 ∧
      mkMergedLabel (sv "Region") (sv "Q1") = "Region_Q1" ∧
      mkMergedLabel (sv "Region") (sv "Region") = "Region" ∧
      mkMergedLabel (sv "") (sv "Q1") = "Q1" ∧
      mkMergedLabel (sv "Region") (sv "") = "Region") := by
  have hfrac : 1 / 2 ≤ row0EmptyFrac dfSales := by
    have h1 : nullCount0 dfSales = 1 := by decide
    have h2 : dfSales.cols.length = 2 := by decide
    unfold row0EmptyFrac
    rw [h1, h2]
    norm_num
  exact ⟨hfrac, C7_merged_labels dfSales (by decide) (by decide) hfrac⟩

theorem ffillGo_length (l : List Cell) : ∀ last, (ffillGo last l).length = l.length := by
  induction l with
  | nil => intro last; rfl
  | cons c rest ih =>
    intro last
    cases c <;> simp [ffillGo, ih]

theorem ffillSeries_length (l : List Cell) : (ffillSeries l).length = l.length :=
  ffillGo_length l none

theorem zipSet_getD_ne (j' j : Nat) (hne : j' ≠ j) :
    ∀ (rows : List (List Cell)) (vals : List Cell) (i : Nat),
      ((List.zipWith (fun r v => r.set j' v) rows vals).getD i []).getD j none =
        if i < min rows.length vals.length then (rows.getD i []).getD j none
        else ([] : List Cell).getD j none := by
  intro rows
  induction rows with
  | nil => intro vals i; simp
  | cons r rs ih =>
    intro vals i
    cases vals with
    | nil => simp
    | cons v vs =>
      cases i with
      | zero =>
        simp only [List.zipWith_cons_cons, List.getD_cons_zero, List.length_cons]
        rw [if_pos (by omega)]
        rw [List.getD_eq_getElem?_getD, List.getD_eq_getElem?_getD,
          List.getElem?_set_ne hne]
      | succ i2 =>
        simp only [List.zipWith_cons_cons, List.getD_cons_succ, List.length_cons]
        rw [ih vs i2]
        by_cases hlt : i2 < min rs.length vs.length
        · rw [if_pos hlt, if_pos (by omega)]
        · rw [if_neg hlt, if_neg (by omega)]

theorem ffillColumn_cell (j' j : Nat) (hne : j' ≠ j) (rows : List (List Cell)) (i : Nat) :
    ((ffillColumn j' rows).getD i []).getD j none = ((rows.getD i []).getD j none) := by
  unfold ffillColumn setColumn
  rw [zipSet_getD_ne j' j hne rows _ i]
  have hlen : (ffillSeries (getColumn j' rows)).length = rows.length := by
    rw [ffillSeries_length]
    unfold getColumn
    rw [List.length_map]
  rw [hlen, Nat.min_self]
  by_cases hlt : i < rows.length
  · rw [if_pos hlt]
  · rw [if_neg hlt]
    have hnone : rows.getD i [] = [] := by
      rw [List.getD_eq_getElem?_getD, List.getElem?_eq_none (by omega)]
      rfl
    rw [hnone]

theorem ffillColumn_length (j : Nat) (rows : List (List Cell)) :
    (ffillColumn j rows).length = rows.length := by
  unfold ffillColumn setColumn
  rw [List.length_zipWith, ffillSeries_length]
  unfold getColumn
  rw [List.length_map, Nat.min_self]

/-- C8. The merged-cell forward-fill step (with its emptiness guard) never
touches a cell outside the first two positional columns: labels, index and row
count are unchanged, and every cell at column position 2 or greater is exactly
what it was — in particular a null there is never filled. -/
theorem C8_ffill_frame (d : DF) (j : Nat) (hj : 2 ≤ j) :
    (ffillStepGuard d).1.cols = d.cols ∧
    (ffillStepGuard d).1.idx = d.idx ∧
    (ffillStepGuard d).1.rows.length = d.rows.length ∧
    ∀ i, cellAt (ffillStepGuard d).1 i j = cellAt d i j := by
  have h0 : (0 : Nat) ≠ j := by omega
  have h1 : (1 : Nat) ≠ j := by omega
  unfold ffillStepGuard ffillTwoCols cellAt
  dsimp only
  split_ifs with hg hc0 hlen hc1 <;>
    refine ⟨rfl, rfl, ?_, fun i => ?_⟩ <;>
    simp only [ffillColumn_length, ffillColumn_cell 1 j h1, ffillColumn_cell 0 j h0]

theorem C8_ffill_frame_witness :
    (2 : Nat) ≤ 2 ∧
    cellAt (ffillStepGuard (toDF gridNanHeader)).1 0 2 = cellAt (toDF gridNanHeader) 0 2 :=
  ⟨by decide, (C8_ffill_frame (toDF gridNanHeader) 2 (by decide)).2.2.2 0⟩

theorem foldl_if_append {α β : Type} (P : α → Prop) [DecidablePred P] (g : α → β) :
    ∀ (l : List α) (acc : List β),
      l.foldl (fun a x => if P x then a ++ [g x] else a) acc =
        acc ++ l.filterMap (fun x => if P x then some (g x) else none) := by
  intro l
  induction l with
  | nil => intro acc; simp
  | cons x rest ih =>
    intro acc
    rw [List.foldl_cons, List.filterMap_cons]
    by_cases hx : P x
    · rw [if_pos hx, if_pos hx, ih]
      simp
    · rw [if_neg hx, if_neg hx, ih]

theorem summaryParts_eq (headers : List String) (row : List Cell) :
    summaryParts headers row = (headers.zip row).filterMap (fun q =>
      if pyStrip (astypeStr q.2) ≠ "" then some (q.1 ++ ":" ++ pyStrip (astypeStr q.2))
      else none) := by
  unfold summaryParts
  exact (foldl_if_append (fun q => pyStrip (astypeStr q.2) ≠ "")
    (fun q => q.1 ++ ":" ++ pyStrip (astypeStr q.2)) (headers.zip row) []).trans
    (List.nil_append _)

theorem ifEmpty_eq {β : Type} [DecidableEq β] (parts : List β) (mk : List β → String) :
    (if ¬ parts.isEmpty then some (mk parts) else none) =
      (if parts = [] then none else some (mk parts)) := by
  cases parts <;> simp

theorem summaryLines_eq (sheetName : String) (d : DF) :
    summaryLines sheetName d =
      ((d.idx.zip d.rows).take 50).filterMap (semLineSpec sheetName d.cols) := by
  unfold summaryLines
  refine ((foldl_if_append (fun p => ¬ (summaryParts d.cols p.2).isEmpty)
    (fun p => summaryLine sheetName p.1 (summaryParts d.cols p.2))
    ((d.idx.zip d.rows).take 50) []).trans (List.nil_append _)).trans ?_
  apply List.filterMap_congr
  intro p _
  show (if ¬ (summaryParts d.cols p.2).isEmpty
      then some (summaryLine sheetName p.1 (summaryParts d.cols p.2)) else none) =
    semLineSpec sheetName d.cols p
  rw [summaryParts_eq]
  exact ifEmpty_eq _ (summaryLine sheetName p.1)

/-- C9 (amended: the row prefix is the code's `来源表:`/`行号:` form).  For
every table and sheet name the semantic summary is exactly one line per row
among the first 50 whose cells are not all empty after stripping — each line
the sheet name and 1-based original row number followed by the non-empty
`column:value` pairs — hence at most 50 lines and at most one line per table
row; on scenario A the single line is
`来源表:Sheet1 | 行号:2 | Name:Alice , Age:30`. -/
theorem C9_summary_shape :
    (∀ (name : String) (d : DF),
      summaryLines name d =
        ((d.idx.zip d.rows).take 50).filterMap (semLineSpec name d.cols)) ∧
    (∀ (name : String) (d : DF),
      (summaryLines name d).length ≤ 50 ∧
      (summaryLines name d).length ≤ d.rows.length) ∧
    summaryLines "Sheet1" (clean_dataframe (toDF gridA)) =
      ["来源表:Sheet1 | 行号:2 | Name:Alice , Age:30"] := by
  refine ⟨summaryLines_eq, fun name d => ⟨?_, ?_⟩, by decide⟩
  · calc (summaryLines name d).length
        ≤ ((d.idx.zip d.rows).take 50).length := by
          rw [summaryLines_eq]
          exact List.length_filterMap_le _ _
      _ ≤ 50 := by
          rw [List.length_take]
          omega
  · calc (summaryLines name d).length
        ≤ ((d.idx.zip d.rows).take 50).length := by
          rw [summaryLines_eq]
          exact List.length_filterMap_le _ _
      _ ≤ d.rows.length := by
          rw [List.length_take, List.length_zip]
          omega

theorem range_map_getD {α : Type} (l : List α) (dflt : α) :
    (List.range l.length).map (fun j => l.getD j dflt) = l := by
  induction l with
  | nil => rfl
  | cons a rest ih =>
    rw [List.length_cons, List.range_succ_eq_map, List.map_cons, List.map_map]
    have h2 : (List.range rest.length).map ((fun j => (a :: rest).getD j dflt) ∘ Nat.succ)
        = (List.range rest.length).map (fun j => rest.getD j dflt) := by
      apply List.map_congr_left
      intro j _
      rfl
    rw [h2, ih]
    rfl

theorem getD_mem_of_lt {α : Type} (l : List α) (n : Nat) (d : α) (h : n < l.length) :
    l.getD n d ∈ l := by
  rw [List.getD_eq_getElem?_getD, List.getElem?_eq_getElem h]
  exact List.getElem_mem h

theorem getD_map_lt {α β : Type} (l : List α) (f : α → β) (p : Nat) (d1 : β) (d2 : α)
    (hp : p < l.length) : (l.map f).getD p d1 = f (l.getD p d2) := by
  induction l generalizing p with
  | nil => simp at hp
  | cons a rest ih =>
    cases p with
    | zero => rfl
    | succ p2 =>
      rw [List.map_cons, List.getD_cons_succ, List.getD_cons_succ]
      exact ih p2 (by simpa using hp)

theorem dropRows_rows_mem (d : DF) (r : List Cell) (hr : r ∈ (dropRows d).rows) :
    r ∈ d.rows ∧ rowNonEmpty r = true := by
  unfold dropRows at hr
  dsimp only at hr
  rcases List.mem_map.mp hr with ⟨p, hpmem, hpr⟩
  have hzip := List.mem_of_mem_filter hpmem
  have hpred := List.of_mem_filter hpmem
  rcases List.of_mem_zip hzip with ⟨_, h2⟩
  subst hpr
  exact ⟨h2, hpred⟩

/-- C10 (amended).  Dropping all-null rows and then all-null columns is
idempotent on every rectangular frame: applying the drop stage to its own
output changes nothing.  (The full cleaning function is not idempotent, since
re-applying it resolves headers again; see the counterexample.) -/
theorem C10_dropStep_idem (d : DF) (hrect : Rect d) :
    dropStep (dropStep d) = dropStep d := by
  set A := dropRows d with hA
  have hAcols : A.cols = d.cols := rfl
  have hArect : ∀ r ∈ A.rows, r.length = d.cols.length := fun r hr =>
    hrect r (dropRows_rows_mem d r hr).1
  have hAnonempty : ∀ r ∈ A.rows, rowNonEmpty r = true := fun r hr =>
    (dropRows_rows_mem d r hr).2
  have hAlen : A.idx.length = A.rows.length := by
    rw [hA]
    unfold dropRows
    dsimp only
    rw [List.length_map, List.length_map]
  -- the first drop's column selection
  set keepIdx := (List.range A.cols.length).filter (colKeep A.rows) with hK
  set B := dropCols A with hB
  have hBcols : B.cols = keepIdx.map (fun j => A.cols.getD j "") := rfl
  have hBrows : B.rows = A.rows.map (fun r => keepIdx.map (fun j => r.getD j none)) := rfl
  have hBidx : B.idx = A.idx := rfl
  have hBcolslen : B.cols.length = keepIdx.length := by rw [hBcols, List.length_map]
  -- every row of B still has a non-null cell
  have hBnonempty : ∀ rB ∈ B.rows, rowNonEmpty rB = true := by
    intro rB hrB
    rw [hBrows] at hrB
    rcases List.mem_map.mp hrB with ⟨r, hrmem, hproj⟩
    have hne := hAnonempty r hrmem
    rcases List.any_eq_true.mp hne with ⟨c, hcmem, hcsome⟩
    rcases List.mem_iff_getElem.mp hcmem with ⟨j, hj, hcj⟩
    have hjlt : j < A.cols.length := by
      rw [hAcols]
      rw [hArect r hrmem] at hj
      exact hj
    have hjkeep : j ∈ keepIdx := by
      rw [hK]
      apply List.mem_filter.mpr
      refine ⟨List.mem_range.mpr hjlt, ?_⟩
      apply List.any_eq_true.mpr
      refine ⟨r, hrmem, ?_⟩
      have : r.getD j none = c := by
        rw [List.getD_eq_getElem?_getD, List.getElem?_eq_getElem hj, hcj]
        rfl
      rw [this, hcsome]
    apply List.any_eq_true.mpr
    refine ⟨r.getD j none, ?_, ?_⟩
    · rw [← hproj]
      exact List.mem_map_of_mem _ hjkeep
    · have : r.getD j none = c := by
        rw [List.getD_eq_getElem?_getD, List.getElem?_eq_getElem hj, hcj]
        rfl
      rw [this, hcsome]
  -- every column position of B still has a non-null cell
  have hBcolkeep : ∀ p < B.cols.length, colKeep B.rows p = true := by
    intro p hp
    rw [hBcolslen] at hp
    have hjmem : keepIdx.getD p 0 ∈ keepIdx := getD_mem_of_lt keepIdx p 0 hp
    have hjcol : colKeep A.rows (keepIdx.getD p 0) = true := List.of_mem_filter hjmem
    rcases List.any_eq_true.mp hjcol with ⟨r, hrmem, hrsome⟩
    apply List.any_eq_true.mpr
    refine ⟨keepIdx.map (fun j => r.getD j none), ?_, ?_⟩
    · rw [hBrows]
      exact List.mem_map_of_mem _ hrmem
    · rw [getD_map_lt keepIdx _ p none 0 hp]
      exact hrsome
  -- each row of B has exactly one cell per column of B
  have hBrect : ∀ rB ∈ B.rows, rB.length = B.cols.length := by
    intro rB hrB
    rw [hBrows] at hrB
    rcases List.mem_map.mp hrB with ⟨r, _, hproj⟩
    rw [← hproj, List.length_map, hBcolslen]
  have hBlen : B.idx.length = B.rows.length := by
    rw [hBidx, hBrows, List.length_map]
    exact hAlen
  -- second dropRows is the identity on B
  have hdropRowsB : dropRows B = B := by
    unfold dropRows
    dsimp only
    have hfilter : (B.idx.zip B.rows).filter (fun p => rowNonEmpty p.2) =
        B.idx.zip B.rows := by
      apply List.filter_eq_self.mpr
      intro p hp
      exact hBnonempty p.2 (List.of_mem_zip hp).2
    rw [hfilter, List.map_fst_zip _ _ (by omega), List.map_snd_zip _ _ (by omega)]
  -- second dropCols is the identity on B
  have hdropColsB : dropCols B = B := by
    unfold dropCols
    dsimp only
    have hfilter : (List.range B.cols.length).filter (colKeep B.rows) =
        List.range B.cols.length := by
      apply List.filter_eq_self.mpr
      intro p hp
      exact hBcolkeep p (List.mem_range.mp hp)
    rw [hfilter]
    have hcols : (List.range B.cols.length).map (fun j => B.cols.getD j "") = B.cols :=
      range_map_getD B.cols ""
    have hrows : B.rows.map (fun r => (List.range B.cols.length).map
        (fun j => r.getD j none)) = B.rows := by
      apply List.map_congr_left ?_ |>.trans (List.map_id B.rows)
      intro r hr
      rw [← hBrect r hr]
      exact range_map_getD r none
    rw [hcols, hrows]
  show dropCols (dropRows B) = B
  rw [hdropRowsB, hdropColsB]

theorem C10_dropStep_idem_witness :
    Rect (toDF gridNanHeader) ∧
    dropStep (dropStep (toDF gridNanHeader)) = dropStep (toDF gridNanHeader) :=
  ⟨by decide, C10_dropStep_idem (toDF gridNanHeader) (by decide)⟩

theorem lookup_map_self {α : Type} (f : Nat → α) :
    ∀ (perm : List Nat) (i : Nat), i ∈ perm →
      (perm.map (fun j => (j, f j))).lookup i = some (f i) := by
  intro perm
  induction perm with
  | nil => intro i hi; cases hi
  | cons j rest ih =>
    intro i hi
    rw [List.map_cons, List.lookup_cons]
    by_cases hij : i = j
    · subst hij
      simp
    · have hbeq : (i == j) = false := beq_false_of_ne hij
      rw [hbeq]
      refine ih i ?_
      rcases List.mem_cons.mp hi with h | h
      · exact absurd h hij
      · exact h

theorem parDispatch_store_free (ids : Nat → String) (dfs : List (String × DF))
    (perm : List Nat) (hmem : ∀ i ∈ List.range dfs.length, i ∈ perm) :
    parDispatch ids perm dfs =
      (List.range dfs.length).foldl
        (fun acc i =>
          match taskResult ids dfs i with
          | some (n, frag, sid) => dictInsert n (frag, sid) acc
          | none => acc)
        [] := by
  unfold parDispatch
  apply List.foldl_ext
  intro acc i hi
  rw [lookup_map_self (taskResult ids dfs) perm i (hmem i hi)]
  rcases taskResult ids dfs i with _ | ⟨n, frag, sid⟩ <;> rfl

/-- C4, code evaluated at the failing input, plus the ordering guarantee.
Task completion order never leaks into the collected mapping: under any
completion order (any permutation of the submission positions) the pool
produces the same result as submission-order collection.  But sequential and
pooled dispatch are not equivalent on every sheet set: on a set containing a
sheet that cleans to empty, the sequential loop unpacks `None` and raises,
while the pool swallows the error and returns the surviving sheets. -/
theorem C4_pool_order_and_divergence :
    (∀ (ids : Nat → String) (perm : List Nat) (dfs : List (String × DF)),
      perm.Perm (List.range dfs.length) →
      parDispatch ids perm dfs = parDispatch ids (List.range dfs.length) dfs) ∧
    seqGo uidsDemo 0 [] wbMixed = .error () ∧
    (parDispatch uidsDemo [0, 1] wbMixed).map Prod.fst = ["B"] := by
  refine ⟨?_, by decide, by decide⟩
  intro ids perm dfs hperm
  rw [parDispatch_store_free ids dfs perm
      (fun i hi => (hperm.mem_iff).mpr hi),
    parDispatch_store_free ids dfs (List.range dfs.length) (fun i hi => hi)]

theorem C4_pool_order_witness :
    ([1, 0] : List Nat).Perm (List.range wbTwo.length) ∧
    parDispatch uidsDemo [1, 0] wbTwo = parDispatch uidsDemo (List.range wbTwo.length) wbTwo :=
  ⟨by decide, C4_pool_order_and_divergence.1 uidsDemo [1, 0] wbTwo (by decide)⟩

theorem dictInsert_not_mem (k : String) (v : Fragment × String) :
    ∀ (acc : ResultMap), k ∉ acc.map Prod.fst → dictInsert k v acc = acc ++ [(k, v)] := by
  intro acc
  induction acc with
  | nil => intro _; rfl
  | cons p rest ih =>
    intro hk
    rw [List.map_cons, List.mem_cons] at hk
    push_neg at hk
    unfold dictInsert
    rw [if_neg (fun h => hk.1 h.symm), ih hk.2, List.cons_append]

theorem taskResult_shape (ids : Nat → String) (dfs : List (String × DF)) (i : Nat)
    (t : String × Fragment × String) (h : taskResult ids dfs i = some t) :
    (∃ df, dfs[i]? = some (t.1, df)) ∧ t.2.2 = "sheet_" ++ ids i := by
  unfold taskResult at h
  split at h
  case h_1 name df hg =>
    unfold process_single_sheet_task at h
    dsimp only at h
    split at h
    · cases h
    · injection h with h2
      subst h2
      exact ⟨⟨df, hg⟩, rfl⟩
  case h_2 => cases h

theorem collect_filterMap (ids : Nat → String) (dfs : List (String × DF)) :
    ∀ (l : List Nat) (acc : ResultMap),
      (∀ i ∈ l, ∀ t, taskResult ids dfs i = some t → t.1 ∉ acc.map Prod.fst) →
      l.Pairwise (fun i j => ∀ t t', taskResult ids dfs i = some t →
        taskResult ids dfs j = some t' → t.1 ≠ t'.1) →
      l.foldl (fun acc i =>
          match taskResult ids dfs i with
          | some (n, frag, sid) => dictInsert n (frag, sid) acc
          | none => acc) acc =
        acc ++ l.filterMap (fun i => (taskResult ids dfs i).map (fun t => (t.1, t.2))) := by
  intro l
  induction l with
  | nil => intro acc _ _; simp
  | cons i rest ih =>
    intro acc hfresh hpair
    rw [List.pairwise_cons] at hpair
    rw [List.foldl_cons, List.filterMap_cons]
    rcases ht : taskResult ids dfs i with _ | ⟨n, frag, sid⟩
    · rw [Option.map_none']
      exact ih acc (fun j hj => hfresh j (List.mem_cons_of_mem i hj)) hpair.2
    · rw [Option.map_some']
      have hni : n ∉ acc.map Prod.fst := by
        have := hfresh i (List.mem_cons_self i rest) (n, frag, sid) ht
        exact this
      show rest.foldl _ (dictInsert n (frag, sid) acc) = _
      rw [dictInsert_not_mem n (frag, sid) acc hni]
      rw [ih (acc ++ [(n, (frag, sid))]) ?_ hpair.2]
      · rw [List.append_assoc]
        rfl
      · intro j hj t' ht'
        rw [List.map_append, List.mem_append]
        push_neg
        refine ⟨fun hin => hfresh j (List.mem_cons_of_mem i hj) t' ht' hin, ?_⟩
        have hne := hpair.1 j hj (n, frag, sid) t' ht ht'
        simp only [List.map_cons, List.map_nil, List.mem_singleton]
        exact fun heq => hne heq.symm

theorem string_append_cancel (s a b : String) (h : s ++ a = s ++ b) : a = b := by
  have hd := congrArg String.data h
  rw [String.data_append, String.data_append] at hd
  apply String.ext
  exact List.append_cancel_left hd

theorem anchors_nodup (ids : Nat → String) (dfs : List (String × DF)) :
    ∀ (l : List Nat), l.Pairwise (fun i j => ids i ≠ ids j) →
      ((l.filterMap (fun i => (taskResult ids dfs i).map (fun t => (t.1, t.2)))).map
        (fun p => p.2.2)).Nodup := by
  intro l
  induction l with
  | nil => intro _; simp
  | cons i rest ih =>
    intro hpair
    rw [List.pairwise_cons] at hpair
    rw [List.filterMap_cons]
    rcases ht : taskResult ids dfs i with _ | ⟨n, frag, sid⟩
    · rw [Option.map_none']
      exact ih hpair.2
    · rw [Option.map_some', List.map_cons, List.nodup_cons]
      refine ⟨?_, ih hpair.2⟩
      intro hmem
      rcases List.mem_map.mp hmem with ⟨p, hpmem, hpeq⟩
      rcases List.mem_filterMap.mp hpmem with ⟨j, hjmem, hjeq⟩
      rcases hq : taskResult ids dfs j with _ | t'
      · rw [hq] at hjeq; cases hjeq
      · rw [hq] at hjeq
        injection hjeq with hjeq2
        have hsid : (n, frag, sid).2.2 = "sheet_" ++ ids i :=
          (taskResult_shape ids dfs i _ ht).2
        have hsid' : t'.2.2 = "sheet_" ++ ids j :=
          (taskResult_shape ids dfs j _ hq).2
        have : "sheet_" ++ ids j = "sheet_" ++ ids i := by
          rw [← hsid, ← hsid']
          rw [← hjeq2] at hpeq
          exact hpeq
        exact hpair.1 j hjmem (string_append_cancel _ _ _ this).symm

/-- C2 (amended).  The fragment mapping is a dict keyed by sheet name, so two
sheets named `Data` collapse to a single entry; when the workbook's sheet
names are pairwise distinct the mapping is exactly one entry per surviving
sheet in declared sheet order, each carrying its generated `sheet_<uid>`
anchor, and the anchor IDs are pairwise distinct whenever the per-task
generated uids are distinct. -/
theorem C2_name_keyed_mapping (ids : Nat → String) (dfs : List (String × DF))
    (hn : (dfs.map Prod.fst).Nodup)
    (hi : ∀ a, a < dfs.length → ∀ b, b < dfs.length → a ≠ b → ids a ≠ ids b) :
    parDispatch ids (List.range dfs.length) dfs =
      (List.range dfs.length).filterMap
        (fun i => (taskResult ids dfs i).map (fun t => (t.1, t.2))) ∧
    ((parDispatch ids (List.range dfs.length) dfs).map (fun p => p.2.2)).Nodup ∧
    (parDispatch uidsDemo [0, 1] wbData).map Prod.fst = ["Data"] := by
  have hchar : parDispatch ids (List.range dfs.length) dfs =
      (List.range dfs.length).filterMap
        (fun i => (taskResult ids dfs i).map (fun t => (t.1, t.2))) := by
    rw [parDispatch_store_free ids dfs (List.range dfs.length) (fun i hi2 => hi2)]
    refine (collect_filterMap ids dfs (List.range dfs.length) [] ?_ ?_).trans ?_
    · intro i _ t _
      simp
    · apply List.pairwise_iff_getElem.mpr
      intro a b ha hb hab
      simp only [List.getElem_range]
      rw [List.length_range] at ha hb
      intro t t' ht ht' heq
      obtain ⟨⟨df1, hg1⟩, _⟩ := taskResult_shape ids dfs a t ht
      obtain ⟨⟨df2, hg2⟩, _⟩ := taskResult_shape ids dfs b t' ht'
      have hna : (dfs.map Prod.fst)[a]? = some t.1 := by
        rw [List.getElem?_map, hg1]
        rfl
      have hnb : (dfs.map Prod.fst)[b]? = some t'.1 := by
        rw [List.getElem?_map, hg2]
        rfl
      have hsame : (dfs.map Prod.fst)[a]? = (dfs.map Prod.fst)[b]? := by
        rw [hna, hnb, heq]
      have hamap : a < (dfs.map Prod.fst).length := by
        rw [List.length_map]
        exact ha
      exact absurd (List.getElem?_inj hamap hn hsame) (Nat.ne_of_lt hab)
    · rw [List.nil_append]
  refine ⟨hchar, ?_, by decide⟩
  rw [hchar]
  apply anchors_nodup
  apply List.pairwise_iff_getElem.mpr
  intro a b ha hb hab
  rw [List.length_range] at ha hb
  simp only [List.getElem_range]
  exact hi a ha b hb (Nat.ne_of_lt hab)

theorem C2_name_keyed_witness :
    (wbTwo.map Prod.fst).Nodup ∧
    ((parDispatch uidsDemo (List.range wbTwo.length) wbTwo).map (fun p => p.2.2)).Nodup :=
  ⟨by decide, (C2_name_keyed_mapping uidsDemo wbTwo (by decide) (by decide)).2.1⟩

end ExcelProc
